import Mathlib

/-
Verification of the ai-2027-wargames data model: the log-scale chart
transform, the axis tick formatter, the dataset JSON schema, and the
editor mutation operations, shallowly embedded from the TypeScript
source (ChartWindow / MainWindow / dataSchema).
-/

/-! ## Log-scale transform (ChartWindow)

`applyLogTransform` / `reverseLogTransform` are modelled over the reals,
as the spec's invariants are stated for exact real arithmetic. -/

/-- `applyLogTransform` from ChartWindow:
`value <= 1 ? value : Math.log(value) + 1`. -/
noncomputable def applyLogTransform (value : ℝ) : ℝ :=
  if value ≤ 1 then value else Real.log value + 1

/-- `reverseLogTransform` from ChartWindow:
`value <= 1 ? value : Math.exp(value - 1)`. -/
noncomputable def reverseLogTransform (value : ℝ) : ℝ :=
  if value ≤ 1 then value else Real.exp (value - 1)

theorem applyLogTransform_of_le {v : ℝ} (h : v ≤ 1) : applyLogTransform v = v :=
  if_pos h

theorem applyLogTransform_of_gt {v : ℝ} (h : 1 < v) :
    applyLogTransform v = Real.log v + 1 :=
  if_neg (not_le.mpr h)

theorem reverseLogTransform_of_le {v : ℝ} (h : v ≤ 1) : reverseLogTransform v = v :=
  if_pos h

theorem reverseLogTransform_of_gt {v : ℝ} (h : 1 < v) :
    reverseLogTransform v = Real.exp (v - 1) :=
  if_neg (not_le.mpr h)

/-- The inverse transform undoes the forward transform (helper, valid for every
real input: the interesting case `1 < v` uses `exp (log v) = v`). -/
theorem revLog_applyLog (v : ℝ) : reverseLogTransform (applyLogTransform v) = v := by
  rcases le_or_lt v 1 with h | h
  · rw [applyLogTransform_of_le h, reverseLogTransform_of_le h]
  · rw [applyLogTransform_of_gt h]
    have hlog : 0 < Real.log v := Real.log_pos h
    have h1 : 1 < Real.log v + 1 := by linarith
    rw [reverseLogTransform_of_gt h1]
    rw [add_sub_cancel_right]
    exact Real.exp_log (lt_trans one_pos h)

theorem applyLogTransform_lower {v : ℝ} (hv : 0 < v) :
    Real.log v + 1 ≤ applyLogTransform v := by
  unfold applyLogTransform
  split
  · have := Real.log_le_sub_one_of_pos hv
    linarith
  · exact le_refl _

theorem applyLogTransform_upper {v : ℝ} (hv : 0 < v) : applyLogTransform v ≤ v := by
  unfold applyLogTransform
  split
  · exact le_refl _
  · have := Real.log_le_sub_one_of_pos hv
    linarith

theorem applyLogTransform_strict_mono {a b : ℝ} (ha : 0 ≤ a) (hab : a < b) :
    applyLogTransform a < applyLogTransform b := by
  rcases le_or_lt b 1 with hb | hb
  · rw [applyLogTransform_of_le (hab.le.trans hb), applyLogTransform_of_le hb]
    exact hab
  · rw [applyLogTransform_of_gt hb]
    rcases le_or_lt a 1 with ha1 | ha1
    · rw [applyLogTransform_of_le ha1]
      have hlog : 0 < Real.log b := Real.log_pos hb
      linarith
    · rw [applyLogTransform_of_gt ha1]
      have hlog : Real.log a < Real.log b := Real.log_lt_log (lt_trans one_pos ha1) hab
      linarith

theorem continuous_applyLogTransform : Continuous applyLogTransform := by
  rw [continuous_iff_continuousAt]
  intro x
  rcases lt_trichotomy x 1 with hx | hx | hx
  · have hmem : Set.Iio (1 : ℝ) ∈ nhds x := Iio_mem_nhds hx
    have heq : applyLogTransform =ᶠ[nhds x] id :=
      Filter.eventuallyEq_of_mem hmem fun v hv => applyLogTransform_of_le (le_of_lt hv)
    exact ContinuousAt.congr continuousAt_id heq.symm
  · subst hx
    have hf1 : applyLogTransform 1 = 1 := applyLogTransform_of_le le_rfl
    have hlog : Filter.Tendsto (fun v : ℝ => Real.log v + 1) (nhds 1) (nhds 1) := by
      have hc : ContinuousAt (fun v : ℝ => Real.log v + 1) 1 :=
        (Real.continuousAt_log one_ne_zero).add continuousAt_const
      have := hc.tendsto
      simpa [Real.log_one] using this
    have hid : Filter.Tendsto (fun v : ℝ => v) (nhds (1 : ℝ)) (nhds 1) := Filter.tendsto_id
    have hmem : Set.Ioi (0 : ℝ) ∈ nhds (1 : ℝ) := Ioi_mem_nhds one_pos
    have hlb : ∀ᶠ v in nhds (1 : ℝ), Real.log v + 1 ≤ applyLogTransform v :=
      Filter.eventually_of_mem hmem fun v hv => applyLogTransform_lower hv
    have hub : ∀ᶠ v in nhds (1 : ℝ), applyLogTransform v ≤ v :=
      Filter.eventually_of_mem hmem fun v hv => applyLogTransform_upper hv
    have ht : Filter.Tendsto applyLogTransform (nhds 1) (nhds 1) :=
      tendsto_of_tendsto_of_tendsto_of_le_of_le' hlog hid hlb hub
    show Filter.Tendsto applyLogTransform (nhds 1) (nhds (applyLogTransform 1))
    rw [hf1]
    exact ht
  · have hmem : Set.Ioi (1 : ℝ) ∈ nhds x := Ioi_mem_nhds hx
    have heq : applyLogTransform =ᶠ[nhds x] fun v => Real.log v + 1 :=
      Filter.eventuallyEq_of_mem hmem fun v hv => applyLogTransform_of_gt hv
    have hc : ContinuousAt (fun v : ℝ => Real.log v + 1) x :=
      (Real.continuousAt_log (ne_of_gt (lt_trans one_pos hx))).add continuousAt_const
    exact ContinuousAt.congr hc heq.symm

/-! ## Axis tick formatter (draggable ChartWindow variant)

The formatter computes `Math.round(originalValue * 100) / 100` and renders
that number. The rounded value is an exact multiple of `1/100`, so it is
represented by its integer number of hundredths ("cents"):
`round (originalValue * 100) : ℤ`. -/

/-- `CUSTOM_Y_TICKS` from ChartWindow. -/
def CUSTOM_Y_TICKS : List ℕ := [2, 3, 10, 100, 2000]

/-- `CUSTOM_Y_LABELS` from ChartWindow, keyed by the rounded display value
expressed in hundredths: key `n` stands for the raw value `n / 100`
(so `200 ↦` the label of raw value `2`). -/
def CUSTOM_Y_LABELS (cents : ℤ) : Option String :=
  if cents = 200 then some "Weak Autonomous remote worker"
  else if cents = 300 then some "Autonomous remote worker"
  else if cents = 1000 then some "Strong autonomous remote worker"
  else if cents = 10000 then some "Superhuman genius"
  else if cents = 200000 then some "Superintelligence"
  else none

/-- JavaScript's default rendering of the non-negative number `cents / 100`
(the result of `Math.round(v * 100) / 100`), which prints no trailing zeros:
`200 ↦ "2"`, `250 ↦ "2.5"`, `237 ↦ "2.37"`, `205 ↦ "2.05"`. -/
def centsToString (cents : ℤ) : String :=
  if cents % 100 = 0 then toString (cents / 100)
  else if cents % 10 = 0 then toString (cents / 100) ++ "." ++ toString (cents % 100 / 10)
  else if cents % 100 < 10 then toString (cents / 100) ++ ".0" ++ toString (cents % 100)
  else toString (cents / 100) ++ "." ++ toString (cents % 100)

/-- `formatYAxisTick` from the draggable ChartWindow variant: invert the
transform, round to 2 decimal places, and append the anchor label when the
rounded value has one, else show the bare value. -/
noncomputable def formatYAxisTick (value : ℝ) : String :=
  match CUSTOM_Y_LABELS (round (reverseLogTransform value * 100)) with
  | some label => centsToString (round (reverseLogTransform value * 100)) ++ "x — " ++ label
  | none => centsToString (round (reverseLogTransform value * 100)) ++ "x"

/-! ## Claims C1 - C3 -/

/-- C1: for every real `v ≥ 0`, `reverseLogTransform (applyLogTransform v) = v`
exactly over real arithmetic — the inverse transform is an exact inverse of the
forward transform on the whole domain, including the boundary `v = 1`. -/
theorem transform_roundtrip (v : ℝ) (hv : 0 ≤ v) :
    reverseLogTransform (applyLogTransform v) = v :=
  revLog_applyLog v

/-- Witness for C1 at the boundary point `v = 1`. -/
theorem transform_roundtrip_wit :
    (0 : ℝ) ≤ 1 ∧ reverseLogTransform (applyLogTransform 1) = 1 :=
  ⟨zero_le_one, transform_roundtrip 1 zero_le_one⟩

/-- C2: `applyLogTransform` is continuous on `[0, ∞)` and strictly increasing
there (`0 ≤ a < b → f a < f b`), and its two branches agree at the boundary
`v = 1` (`log 1 + 1 = f 1 = 1`). -/
theorem transform_continuous_strict_mono :
    ContinuousOn applyLogTransform (Set.Ici (0 : ℝ)) ∧
    (∀ a b : ℝ, 0 ≤ a → a < b → applyLogTransform a < applyLogTransform b) ∧
    Real.log 1 + 1 = applyLogTransform 1 := by
  refine ⟨continuous_applyLogTransform.continuousOn,
    fun a b ha hab => applyLogTransform_strict_mono ha hab, ?_⟩
  rw [applyLogTransform_of_le le_rfl, Real.log_one, zero_add]

/-- Witness for C2: strict monotonicity applied at `0 < 2`. -/
theorem transform_continuous_strict_mono_wit :
    applyLogTransform 0 < applyLogTransform 2 :=
  transform_continuous_strict_mono.2.1 0 2 le_rfl (by norm_num)

/-- C3: the axis tick formatter, applied to the transformed coordinates of the
anchored value `2` and the unanchored value `5`, produces the labelled and the
bare rendering respectively. -/
theorem formatYAxisTick_anchor_values :
    formatYAxisTick (applyLogTransform 2) = "2x — Weak Autonomous remote worker" ∧
    formatYAxisTick (applyLogTransform 5) = "5x" := by
  have h2 : reverseLogTransform (applyLogTransform 2) = 2 := revLog_applyLog 2
  have h5 : reverseLogTransform (applyLogTransform 5) = 5 := revLog_applyLog 5
  have hr2 : round (reverseLogTransform (applyLogTransform 2) * 100) = (200 : ℤ) := by
    rw [h2]
    norm_num [round_ofNat]
  have hr5 : round (reverseLogTransform (applyLogTransform 5) * 100) = (500 : ℤ) := by
    rw [h5]
    norm_num [round_ofNat]
  constructor
  · unfold formatYAxisTick
    rw [hr2]
    decide
  · unfold formatYAxisTick
    rw [hr5]
    decide

/-! ## JavaScript values and the dataset model (dataSchema.ts)

A cell value is a JavaScript number (or `undefined`, which JavaScript lets
slip into a number-typed slot): rationals model the finite doubles, plus
`NaN`, the two infinities and `undefined`. -/

inductive JsVal where
  | num (q : ℚ)
  | nan
  | posInf
  | negInf
  | undef
deriving DecidableEq, Repr

/-- JavaScript's `isNaN` (which coerces its argument): `NaN` and `undefined`
are NaN, every other number is not. -/
def jsIsNaN : JsVal → Bool
  | JsVal.num _ => false
  | JsVal.nan => true
  | JsVal.posInf => false
  | JsVal.negInf => false
  | JsVal.undef => true

/-- A `Row` of the dataset: `{ date, values, hidden? }`.  `values` is a
JavaScript object, modelled as its ordered list of key/value entries
(unique keys), `hidden` is an optional boolean. -/
structure Row where
  date : String
  values : List (String × JsVal)
  hidden : Option Bool
deriving DecidableEq, Repr

/-- The `Data` type of dataSchema.ts: declared headers plus rows. -/
structure Data where
  headers : List String
  rows : List Row
deriving DecidableEq, Repr

/-! ### JavaScript object operations on the `values` entry list -/

/-- Property read `obj[k]` restricted to present keys. -/
def objGet : List (String × JsVal) → String → Option JsVal
  | [], _ => none
  | kv :: rest, k => if kv.1 = k then some kv.2 else objGet rest k

/-- Property read `obj[k]` as JavaScript performs it: `undefined` when the
key is absent. -/
def objGetD (l : List (String × JsVal)) (k : String) : JsVal :=
  (objGet l k).getD JsVal.undef

/-- Property write `obj[k] = v`: updates the entry in place when the key is
present, appends a new entry at the end otherwise (JavaScript key order). -/
def objSet : List (String × JsVal) → String → JsVal → List (String × JsVal)
  | [], k, v => [(k, v)]
  | kv :: rest, k, v => if kv.1 = k then (k, v) :: rest else kv :: objSet rest k v

/-- Property removal `delete obj[k]`. -/
def objDelete (l : List (String × JsVal)) (k : String) : List (String × JsVal) :=
  l.filter fun kv => kv.1 ≠ k

/-! ### Calendar dates

`z.iso.date()` accepts exactly `YYYY-MM-DD` strings denoting real Gregorian
calendar dates (month 01-12, day within the month, Feb 29 only in leap
years); the editor parses such strings, does month arithmetic on them with
date-fns `addMonths` (which clamps the day to the target month's length) and
re-formats them zero-padded. -/

def isLeapYear (y : ℕ) : Bool :=
  y % 4 = 0 && (y % 100 ≠ 0 || y % 400 = 0)

def daysInMonth (y m : ℕ) : ℕ :=
  if m = 2 then (if isLeapYear y then 29 else 28)
  else if m = 4 ∨ m = 6 ∨ m = 9 ∨ m = 11 then 30
  else 31

structure Ymd where
  year : ℕ
  month : ℕ
  day : ℕ
deriving DecidableEq, Repr

def digitVal (c : Char) : Option ℕ :=
  if c.isDigit then some (c.toNat - 48) else none

/-- Parse a `YYYY-MM-DD` string into a valid calendar date, rejecting
anything else (the semantics of the zod v4 ISO-date regular expression). -/
def parseISODate (s : String) : Option Ymd :=
  match s.data with
  | [y1, y2, y3, y4, s1, m1, m2, s2, d1, d2] =>
    if s1 = '-' ∧ s2 = '-' then
      match digitVal y1, digitVal y2, digitVal y3, digitVal y4,
            digitVal m1, digitVal m2, digitVal d1, digitVal d2 with
      | some a, some b, some c, some d, some e, some f, some g, some h =>
        let y := 1000 * a + 100 * b + 10 * c + d
        let m := 10 * e + f
        let dd := 10 * g + h
        if 1 ≤ m ∧ m ≤ 12 ∧ 1 ≤ dd ∧ dd ≤ daysInMonth y m then
          some ⟨y, m, dd⟩
        else none
      | _, _, _, _, _, _, _, _ => none
    else none
  | _ => none

def pad2 (n : ℕ) : String :=
  if n < 10 then "0" ++ toString n else toString n

def pad4 (n : ℕ) : String :=
  if n < 10 then "000" ++ toString n
  else if n < 100 then "00" ++ toString n
  else if n < 1000 then "0" ++ toString n
  else toString n

/-- date-fns `format(date, "yyyy-MM-dd")`. -/
def formatISODate (d : Ymd) : String :=
  pad4 d.year ++ "-" ++ pad2 d.month ++ "-" ++ pad2 d.day

/-- date-fns `addMonths`: advance the month, clamping the day-of-month to the
length of the target month. -/
def addMonths (d : Ymd) (n : ℕ) : Ymd :=
  let total := d.year * 12 + (d.month - 1) + n
  let y := total / 12
  let m := total % 12 + 1
  ⟨y, m, min d.day (daysInMonth y m)⟩

/-- An order embedding of valid dates, standing in for
`new Date(s).getTime()`: distinct valid dates map to distinct keys in
timestamp order (invalid strings get a junk key, as `getTime()` gives NaN). -/
def dateKey (s : String) : ℤ :=
  match parseISODate s with
  | some d => (d.year : ℤ) * 10000 + (d.month : ℤ) * 100 + (d.day : ℤ)
  | none => 0

/-! ### Parsed JSON documents and `dataSchema.safeParse`

`Json` models the output of `JSON.parse` (so objects have unique keys and
numbers are finite). -/

inductive Json where
  | null
  | bool (b : Bool)
  | num (q : ℚ)
  | str (s : String)
  | arr (elems : List Json)
  | obj (fields : List (String × Json))

def jLookup : List (String × Json) → String → Option Json
  | [], _ => none
  | kv :: rest, k => if kv.1 = k then some kv.2 else jLookup rest k

/-- `z.string()`. -/
def parseString : Json → Option String
  | Json.str s => some s
  | _ => none

/-- `z.number().check(z.positive())`: a finite, strictly positive number. -/
def parsePositiveNumber : Json → Option JsVal
  | Json.num q => if 0 < q then some (JsVal.num q) else none
  | _ => none

/-- `z.record(z.string(), z.number().check(z.positive()))`. -/
def parseValues : Json → Option (List (String × JsVal))
  | Json.obj fields =>
      fields.mapM fun kv => (parsePositiveNumber kv.2).map fun v => (kv.1, v)
  | _ => none

/-- `z.optional(z.boolean())` on the (possibly absent) `hidden` field. -/
def parseHidden : Option Json → Option (Option Bool)
  | none => some none
  | some (Json.bool b) => some (some b)
  | some _ => none

/-- The structural (pre-refinement) part of `dataSchema` for one row object:
`{ date: z.iso.date(), values: record, hidden: optional bool }` (zod's object
parser ignores extra keys and requires `date` and `values` to be present). -/
def parseRow (j : Json) : Option Row :=
  match j with
  | Json.obj fields =>
    match jLookup fields "date", jLookup fields "values" with
    | some dj, some vj =>
      match parseString dj with
      | some dateStr =>
        if (parseISODate dateStr).isSome then
          match parseValues vj with
          | some vals =>
            match parseHidden (jLookup fields "hidden") with
            | some h => some { date := dateStr, values := vals, hidden := h }
            | none => none
          | none => none
        else none
      | none => none
    | _, _ => none
  | _ => none

/-- The structural part of `dataSchema` on the whole document:
`z.object({ headers: z.array(z.string()), rows: z.array(rowSchema) })`. -/
def parseShape (j : Json) : Option Data :=
  match j with
  | Json.obj fields =>
    match jLookup fields "headers", jLookup fields "rows" with
    | some hj, some rj =>
      match hj, rj with
      | Json.arr hs, Json.arr rs =>
        match hs.mapM parseString, rs.mapM parseRow with
        | some headers, some rows => some { headers := headers, rows := rows }
        | _, _ => none
      | _, _ => none
    | _, _ => none
  | _ => none

/-- The cross-field refinement of `dataSchema`:
`rows.every(row => Object.keys(row.values).every(key => headers.includes(key)))`. -/
def rowKeysOk (d : Data) : Bool :=
  d.rows.all fun row => row.values.all fun kv => decide (kv.1 ∈ d.headers)

/-- `dataSchema.safeParse`: the structural parse, then the refinement check;
`none` models a reported failure with no produced `Data`. -/
def dataSchemaSafeParse (j : Json) : Option Data :=
  match parseShape j with
  | some d => if rowKeysOk d then some d else none
  | none => none

/-! ## Editor mutation operations (MainWindow, browser variant)

Each handler is embedded as a pure function `Data -> Data`; a handler that
reports an error and returns without calling `setData` maps the dataset to
itself. -/

/-- `addRow` from MainWindow.  `today` makes the system clock an explicit
input; the code never consults it: the empty-dataset branch hard-codes
`new Date("2027-10-14")` for the new row's date.  On a non-empty dataset the
new row is dated `addMonths(lastRow.date, 3)`, copies the last row's values
and is hidden; an unparseable last date makes date-fns `format` throw, the
surrounding catch reports the error and the dataset is unchanged. -/
def addRow (today : String) (d : Data) : Data :=
  match d.rows.getLast? with
  | none =>
    { d with rows := [{ date := "2027-10-14",
                        values := d.headers.map fun h => (h, JsVal.num 1),
                        hidden := some false }] }
  | some lastRow =>
    match parseISODate lastRow.date with
    | some pd =>
      { d with rows := d.rows ++ [{ date := formatISODate (addMonths pd 3),
                                    values := lastRow.values,
                                    hidden := some true }] }
    | none => d

/-- `removeColumn` from MainWindow (browser variant): filter the header out
and `delete` its key from every row's values.  There is no last-column
guard in this variant. -/
def removeColumn (headerToRemove : String) (d : Data) : Data :=
  { headers := d.headers.filter fun h => h ≠ headerToRemove,
    rows := d.rows.map fun row =>
      { row with values := objDelete row.values headerToRemove } }

/-- `updateHeader` from MainWindow (browser variant): rejected only when the
new name collides with an existing header other than the one being renamed;
otherwise the header is renamed and every row performs
`newValues[newHeader] = newValues[oldHeader]; delete newValues[oldHeader]`. -/
def updateHeader (oldHeader newHeader : String) (d : Data) : Data :=
  if newHeader ∈ d.headers ∧ newHeader ≠ oldHeader then d
  else
    { headers := d.headers.map fun h => if h = oldHeader then newHeader else h,
      rows := d.rows.map fun row =>
        { row with values :=
            (objDelete (objSet row.values newHeader (objGetD row.values oldHeader)) oldHeader) } }

/-- JavaScript `parseFloat`: skip leading whitespace, then read the longest
prefix that is a signed decimal literal (`digits [. digits] [e/E [sign]
digits]`, or `.digits ...`, or `Infinity`); `NaN` when no such prefix
exists.  The numeric value is exact (a rational), standing in for the
double rounding of the implementation. -/

def takeDigits : List Char → List Char × List Char
  | [] => ([], [])
  | c :: rest =>
    if c.isDigit then
      let (ds, rs) := takeDigits rest
      (c :: ds, rs)
    else ([], c :: rest)

def digitsToNat (ds : List Char) : ℕ :=
  ds.foldl (fun acc c => 10 * acc + (c.toNat - 48)) 0

def parseExpDigits (rest : List Char) : ℤ :=
  let (ds, _) := takeDigits rest
  if ds = [] then 0 else (digitsToNat ds : ℤ)

def parseSignedExpDigits : List Char → ℤ
  | '+' :: rest => parseExpDigits rest
  | '-' :: rest => - parseExpDigits rest
  | rest => parseExpDigits rest

/-- Parse the optional exponent part `e/E [sign] digits`; `0` when the
suffix is not a complete exponent (the longest valid prefix then ends
before the `e`, which leaves the value unscaled — same result). -/
def parseExponent (cs : List Char) : ℤ :=
  match cs with
  | 'e' :: rest => parseSignedExpDigits rest
  | 'E' :: rest => parseSignedExpDigits rest
  | _ => 0

/-- The unsigned decimal literal after the optional sign: mantissa and
exponent combined into an exact rational, `none` when no digit is found. -/
def parseDecimalLiteral (cs : List Char) : Option ℚ :=
  let (intDs, rest1) := takeDigits cs
  match rest1 with
  | '.' :: rest2 =>
    let (fracDs, rest3) := takeDigits rest2
    if intDs = [] ∧ fracDs = [] then none
    else
      let mantissa : ℚ :=
        (digitsToNat intDs : ℚ) + (digitsToNat fracDs : ℚ) / ((10 : ℚ) ^ fracDs.length)
      some (mantissa * (10 : ℚ) ^ parseExponent rest3)
  | _ =>
    if intDs = [] then none
    else some ((digitsToNat intDs : ℚ) * (10 : ℚ) ^ parseExponent rest1)

def parseFloat (s : String) : JsVal :=
  let cs := s.data.dropWhile fun c => c = ' ' ∨ c = '\t' ∨ c = '\n' ∨ c = '\r'
  match cs with
  | '-' :: rest =>
    match rest with
    | 'I' :: 'n' :: 'f' :: 'i' :: 'n' :: 'i' :: 't' :: 'y' :: _ => JsVal.negInf
    | _ =>
      match parseDecimalLiteral rest with
      | some q => JsVal.num (-q)
      | none => JsVal.nan
  | '+' :: rest =>
    match rest with
    | 'I' :: 'n' :: 'f' :: 'i' :: 'n' :: 'i' :: 't' :: 'y' :: _ => JsVal.posInf
    | _ =>
      match parseDecimalLiteral rest with
      | some q => JsVal.num q
      | none => JsVal.nan
  | 'I' :: 'n' :: 'f' :: 'i' :: 'n' :: 'i' :: 't' :: 'y' :: _ => JsVal.posInf
  | _ =>
    match parseDecimalLiteral cs with
    | some q => JsVal.num q
    | none => JsVal.nan

/-- `newRows[rowIndex].values[header] = v` on the row list (the row object at
the index is mutated in place; an out-of-range index would throw in
JavaScript and is left as the identity here). -/
def setRowValue : List Row → ℕ → String → JsVal → List Row
  | [], _, _, _ => []
  | r :: rs, 0, h, v => { r with values := objSet r.values h v } :: rs
  | r :: rs, i + 1, h, v => r :: setRowValue rs i h v

/-- `updateValue` from MainWindow (browser variant): parse the entered string
with `parseFloat` and store the result unconditionally — there is no NaN
check and no sign check in this variant. -/
def updateValue (rowIndex : ℕ) (header : String) (value : String) (d : Data) : Data :=
  { d with rows := setRowValue d.rows rowIndex header (parseFloat value) }

/-- `prepareData` from MainWindow: replace every NaN value by `0` before the
dataset is saved to local storage, downloaded, or emitted to the chart
window. -/
def prepareData (d : Data) : Data :=
  { d with rows := d.rows.map fun row =>
      { row with values := row.values.map fun kv =>
          (kv.1, if jsIsNaN kv.2 then JsVal.num 0 else kv.2) } }

/-! ## Chart data derivation (draggable ChartWindow variant) -/

/-- A chart value is the log-transform of a cell value, applied with
JavaScript number semantics: `NaN <= 1` is false and `Math.log(NaN)` is NaN;
`Infinity` maps to `Infinity`; `-Infinity <= 1` so it passes through; a
non-number (`undefined`) is kept as-is by the `typeof` guard. -/
inductive ChartVal where
  | num (x : ℝ)
  | nan
  | posInf
  | negInf
  | undef

noncomputable def applyLogTransformJs : JsVal → ChartVal
  | JsVal.num q => ChartVal.num (applyLogTransform (q : ℝ))
  | JsVal.nan => ChartVal.nan
  | JsVal.posInf => ChartVal.posInf
  | JsVal.negInf => ChartVal.negInf
  | JsVal.undef => ChartVal.undef

/-- One element of the `chartData` array:
`{ date, timestamp, ...transformedValues }`. -/
structure ChartPoint where
  date : String
  timestamp : ℤ
  values : List (String × ChartVal)

noncomputable def chartPointOfRow (row : Row) : ChartPoint :=
  { date := row.date,
    timestamp := dateKey row.date,
    values := row.values.map fun kv => (kv.1, applyLogTransformJs kv.2) }

/-- `chartData` from the draggable ChartWindow variant: keep the rows whose
`hidden` is falsy (`filter(row => !row.hidden)`), sort them by date
timestamp (a stable sort, as `Array.prototype.sort` is), and map each row
to its chart point. -/
noncomputable def chartData (d : Data) : List ChartPoint :=
  (((d.rows.filter fun row => ! row.hidden.getD false).mergeSort
      fun a b => decide (dateKey a.date ≤ dateKey b.date)).map chartPointOfRow)

/-! ## Lemmas about the JavaScript object operations -/

theorem objGet_objDelete_self (l : List (String × JsVal)) (k : String) :
    objGet (objDelete l k) k = none := by
  induction l with
  | nil => rfl
  | cons kv rest ih =>
    by_cases h : kv.1 = k
    · simpa [objDelete, List.filter_cons, h] using ih
    · simpa [objDelete, List.filter_cons, h, objGet] using ih

theorem objGet_objDelete_ne (l : List (String × JsVal)) (k k' : String) (h : k' ≠ k) :
    objGet (objDelete l k) k' = objGet l k' := by
  induction l with
  | nil => rfl
  | cons kv rest ih =>
    by_cases hk : kv.1 = k
    · simpa [objDelete, List.filter_cons, objGet, hk, Ne.symm h] using ih
    · by_cases hk' : kv.1 = k'
      · simp [objDelete, List.filter_cons, objGet, hk, hk', h]
      · simpa [objDelete, List.filter_cons, objGet, hk, hk'] using ih

theorem objGet_objSet_self (l : List (String × JsVal)) (k : String) (v : JsVal) :
    objGet (objSet l k v) k = some v := by
  induction l with
  | nil => simp [objSet, objGet]
  | cons kv rest ih =>
    by_cases h : kv.1 = k
    · simp [objSet, h, objGet]
    · simpa [objSet, h, objGet] using ih

theorem objGet_objSet_ne (l : List (String × JsVal)) (k k' : String) (v : JsVal)
    (h : k' ≠ k) : objGet (objSet l k v) k' = objGet l k' := by
  induction l with
  | nil => simp [objSet, objGet, Ne.symm h]
  | cons kv rest ih =>
    by_cases hk : kv.1 = k
    · simp [objSet, objGet, hk, Ne.symm h]
    · by_cases hk' : kv.1 = k'
      · simp [objSet, objGet, hk, hk', h]
      · simpa [objSet, objGet, hk, hk'] using ih

theorem setRowValue_length (rs : List Row) (i : ℕ) (h : String) (v : JsVal) :
    (setRowValue rs i h v).length = rs.length := by
  induction rs generalizing i with
  | nil => rfl
  | cons r rest ih =>
    cases i with
    | zero => simp [setRowValue]
    | succ i => simp [setRowValue, ih]

theorem setRowValue_getElem_ne (rs : List Row) (i j : ℕ) (h : String) (v : JsVal)
    (hne : j ≠ i) : (setRowValue rs i h v)[j]? = rs[j]? := by
  induction rs generalizing i j with
  | nil => rfl
  | cons r rest ih =>
    cases i with
    | zero =>
      cases j with
      | zero => exact absurd rfl hne
      | succ j => simp [setRowValue]
    | succ i =>
      cases j with
      | zero => simp [setRowValue]
      | succ j =>
        simp only [setRowValue, List.getElem?_cons_succ]
        exact ih i j fun hh => hne (by rw [hh])

theorem setRowValue_getElem_eq (rs : List Row) (i : ℕ) (h : String) (v : JsVal)
    (r : Row) (hr : rs[i]? = some r) :
    (setRowValue rs i h v)[i]? = some { r with values := objSet r.values h v } := by
  induction rs generalizing i with
  | nil => simp at hr
  | cons r0 rest ih =>
    cases i with
    | zero =>
      simp only [List.getElem?_cons_zero, Option.some.injEq] at hr
      subst hr
      simp [setRowValue]
    | succ i =>
      simp only [setRowValue, List.getElem?_cons_succ]
      exact ih i (by simpa using hr)

/-! ## Shared concrete datasets for witnesses and counterexamples -/

/-- The single row of the spec's add-row example. -/
def sampleRow : Row :=
  { date := "2027-10-14", values := [("A", JsVal.num 1)], hidden := none }

/-- The spec's add-row example dataset: headers `["A"]`, one row. -/
def sampleData : Data :=
  { headers := ["A"], rows := [sampleRow] }

/-! ## Claim C4 -/

theorem rowKeysOk_iff (d : Data) :
    rowKeysOk d = true ↔ ∀ row ∈ d.rows, ∀ kv ∈ row.values, kv.1 ∈ d.headers := by
  simp [rowKeysOk, List.all_eq_true]

/-- C4: on any parsed JSON document that passes the structural part of the
schema, `safeParse` fails exactly when some row's `values` has a key that is
not a declared header; when every row's value keys are declared headers, the
cross-field refinement passes and the parsed `Data` is produced. -/
theorem dataSchema_rejects_unknown_keys (j : Json) (d : Data)
    (hp : parseShape j = some d) :
    ((∃ row ∈ d.rows, ∃ kv ∈ row.values, kv.1 ∉ d.headers) →
      dataSchemaSafeParse j = none) ∧
    ((∀ row ∈ d.rows, ∀ kv ∈ row.values, kv.1 ∈ d.headers) →
      dataSchemaSafeParse j = some d) := by
  constructor
  · rintro ⟨row, hrow, kv, hkv, hnot⟩
    have hko : rowKeysOk d = false := by
      cases hrk : rowKeysOk d
      · rfl
      · exact absurd ((rowKeysOk_iff d).mp hrk row hrow kv hkv) hnot
    simp [dataSchemaSafeParse, hp, hko]
  · intro hall
    have hko : rowKeysOk d = true := (rowKeysOk_iff d).mpr hall
    simp [dataSchemaSafeParse, hp, hko]

/-- A well-formed document for the C4 witness. -/
def okJson : Json :=
  Json.obj [("headers", Json.arr [Json.str "A"]),
            ("rows", Json.arr [Json.obj [("date", Json.str "2027-10-14"),
                                         ("values", Json.obj [("A", Json.num 1)])]])]

/-- Witness for C4: the well-formed document parses to the sample dataset. -/
theorem dataSchema_rejects_unknown_keys_wit :
    dataSchemaSafeParse okJson = some sampleData :=
  (dataSchema_rejects_unknown_keys okJson sampleData (by decide)).2 (by decide)

/-! ## Claim C5 (corrected) -/

/-- C5 counterexample: adding a row to an empty dataset ignores the current
date (`today = "2025-06-01"` here) — the appended row is dated by the
hard-coded `new Date("2027-10-14")`, not dated today. -/
theorem addRow_empty_fixed_date_cex :
    (addRow "2025-06-01" { headers := ["A"], rows := [] }).rows.map Row.date =
      ["2027-10-14"] ∧
    ("2027-10-14" : String) ≠ "2025-06-01" := by
  constructor
  · rfl
  · decide

/-- C5 (amended): on an empty dataset, add-row appends one row dated by the
hard-coded scenario date `2027-10-14` (whatever the current date is), with
value `1.0` per header and not hidden; on a non-empty dataset it appends
exactly one row dated 3 months after the last row's date, values copied from
the last row, hidden; in particular the spec's example appends
`{2028-01-14, {A: 1}, hidden}`. -/
theorem addRow_spec (today : String) (d : Data) :
    (d.rows = [] →
      addRow today d =
        { d with rows := [{ date := "2027-10-14",
                            values := d.headers.map fun h => (h, JsVal.num 1),
                            hidden := some false }] }) ∧
    (∀ lastRow pd, d.rows.getLast? = some lastRow →
      parseISODate lastRow.date = some pd →
      addRow today d =
        { d with rows := d.rows ++ [{ date := formatISODate (addMonths pd 3),
                                      values := lastRow.values,
                                      hidden := some true }] }) ∧
    addRow today sampleData =
      { sampleData with
          rows := sampleData.rows ++ [{ date := "2028-01-14",
                                        values := [("A", JsVal.num 1)],
                                        hidden := some true }] } := by
  refine ⟨?_, ?_, ?_⟩
  · intro h
    simp [addRow, h]
  · intro lastRow pd hlast hpd
    simp [addRow, hlast, hpd]
  · rfl

/-- Witness for C5's amended theorem at the spec's example dataset. -/
theorem addRow_spec_wit :
    addRow "2027-10-14" sampleData =
      { sampleData with
          rows := sampleData.rows ++
            [{ date := formatISODate (addMonths ⟨2027, 10, 14⟩ 3),
               values := [("A", JsVal.num 1)],
               hidden := some true }] } :=
  (addRow_spec "2027-10-14" sampleData).2.1 sampleRow ⟨2027, 10, 14⟩ (by decide) (by decide)

/-! ## Claim C6 (corrected) -/

/-- C6 counterexample: renaming header `"A"` to itself is not a no-op — the
re-keying writes then deletes the same key, so every row loses its `"A"`
value entirely. -/
theorem updateHeader_self_rename_cex :
    updateHeader "A" "A" sampleData ≠ sampleData ∧
    (updateHeader "A" "A" sampleData).rows.map Row.values = [[]] := by
  constructor
  · decide
  · decide

/-- C6 (amended): rename-header leaves the dataset unchanged exactly when the
new name equals an existing header other than the one being renamed (the
empty name is not rejected); otherwise it replaces the old name in headers
and re-keys every row by writing the old key's value under the new name and
deleting the old key — so the old key is always gone afterwards, renaming a
header to its own name deletes the column's values, and all other row data
is untouched. -/
theorem updateHeader_spec (o n : String) (d : Data) :
    (n ∈ d.headers → n ≠ o → updateHeader o n d = d) ∧
    (¬(n ∈ d.headers ∧ n ≠ o) →
      (updateHeader o n d).headers = d.headers.map (fun h => if h = o then n else h) ∧
      (updateHeader o n d).rows.length = d.rows.length ∧
      (∀ (i : ℕ) (r r' : Row), d.rows[i]? = some r → (updateHeader o n d).rows[i]? = some r' →
        r'.date = r.date ∧ r'.hidden = r.hidden ∧
        objGet r'.values o = none ∧
        (n ≠ o → objGet r'.values n = some (objGetD r.values o)) ∧
        (∀ g, g ≠ o → g ≠ n → objGet r'.values g = objGet r.values g))) := by
  constructor
  · intro hn hno
    unfold updateHeader
    rw [if_pos ⟨hn, hno⟩]
  · intro hcond
    unfold updateHeader
    rw [if_neg hcond]
    refine ⟨rfl, by simp, ?_⟩
    intro i r r' hr hr'
    rw [List.getElem?_map, hr] at hr'
    simp only [Option.map_some'] at hr'
    injection hr' with hr'
    subst hr'
    refine ⟨rfl, rfl, objGet_objDelete_self _ _, ?_, ?_⟩
    · intro hno
      rw [objGet_objDelete_ne _ _ _ hno, objGet_objSet_self]
    · intro g hgo hgn
      rw [objGet_objDelete_ne _ _ _ hgo, objGet_objSet_ne _ _ _ _ hgn]

/-- Witness for C6's amended theorem: a genuine rename relabels the header. -/
theorem updateHeader_spec_wit :
    (updateHeader "A" "B" sampleData).headers = ["B"] :=
  ((updateHeader_spec "A" "B" sampleData).2 (by decide)).1

/-! ## Claim C7 (corrected) -/

/-- C7 counterexample: removing the only remaining header does not fail — the
browser-variant `removeColumn` has no last-column guard, so the dataset is
changed and ends up with no headers at all. -/
theorem removeColumn_last_header_cex :
    removeColumn "A" sampleData ≠ sampleData ∧
    (removeColumn "A" sampleData).headers = [] := by
  constructor
  · decide
  · rfl

/-- C7 (amended): remove-column always removes the header from `headers` and
deletes the corresponding key from every row's values, changing nothing
else — including when it is the last remaining header (no rejection in this
variant). -/
theorem removeColumn_spec (h : String) (d : Data) :
    h ∉ (removeColumn h d).headers ∧
    (∀ g, g ≠ h → (g ∈ (removeColumn h d).headers ↔ g ∈ d.headers)) ∧
    (removeColumn h d).rows.length = d.rows.length ∧
    (∀ (i : ℕ) (r r' : Row), d.rows[i]? = some r →
      (removeColumn h d).rows[i]? = some r' →
      r'.date = r.date ∧ r'.hidden = r.hidden ∧
      objGet r'.values h = none ∧
      (∀ g, g ≠ h → objGet r'.values g = objGet r.values g)) := by
  refine ⟨?_, ?_, by simp [removeColumn], ?_⟩
  · simp [removeColumn, List.mem_filter]
  · intro g hg
    simp [removeColumn, List.mem_filter, hg]
  · intro i r r' hr hr'
    simp only [removeColumn] at hr'
    rw [List.getElem?_map, hr] at hr'
    simp only [Option.map_some'] at hr'
    injection hr' with hr'
    subst hr'
    exact ⟨rfl, rfl, objGet_objDelete_self _ _,
      fun g hg => objGet_objDelete_ne _ _ _ hg⟩

/-- The two-column dataset used by the C7 witness. -/
def twoColData : Data :=
  { headers := ["A", "B"],
    rows := [{ date := "2027-10-14",
               values := [("A", JsVal.num 1), ("B", JsVal.num 2)],
               hidden := none }] }

/-- Witness for C7's amended theorem: removing `"A"` keeps `"B"`. -/
theorem removeColumn_spec_wit :
    ("B" ∈ (removeColumn "A" twoColData).headers ↔ "B" ∈ twoColData.headers) :=
  (removeColumn_spec "A" twoColData).2.1 "B" (by decide)

/-! ## Claim C8 (corrected) -/

/-- C8 counterexample: updating a value with the unparseable string `"abc"`
does mutate the dataset — the browser-variant `updateValue` has no `isNaN`
guard and stores the NaN produced by `parseFloat`. -/
theorem updateValue_unparseable_cex :
    parseFloat "abc" = JsVal.nan ∧
    updateValue 0 "A" "abc" sampleData ≠ sampleData := by
  constructor
  · rfl
  · decide

/-- C8 (amended): update-value stores `parseFloat(value)` — NaN for an
unparseable string, negative numbers included — at the addressed row's value
for the addressed header, updating the entry in place (or appending the key),
and changes nothing else; no parse-failure or sign rejection occurs. -/
theorem updateValue_spec (i : ℕ) (h s : String) (d : Data) (r : Row)
    (hr : d.rows[i]? = some r) :
    (updateValue i h s d).headers = d.headers ∧
    (updateValue i h s d).rows.length = d.rows.length ∧
    (∀ j : ℕ, j ≠ i → (updateValue i h s d).rows[j]? = d.rows[j]?) ∧
    (updateValue i h s d).rows[i]? =
      some { r with values := objSet r.values h (parseFloat s) } := by
  refine ⟨rfl, ?_, ?_, ?_⟩
  · simp [updateValue, setRowValue_length]
  · intro j hj
    simp only [updateValue]
    exact setRowValue_getElem_ne _ _ _ _ _ hj
  · simp only [updateValue]
    exact setRowValue_getElem_eq _ _ _ _ _ hr

/-- Witness for C8's amended theorem: storing `"5"` writes `parseFloat "5"`
into the addressed cell of the sample dataset. -/
theorem updateValue_spec_wit :
    (updateValue 0 "A" "5" sampleData).rows[0]? =
      some { sampleRow with values := objSet sampleRow.values "A" (parseFloat "5") } :=
  (updateValue_spec 0 "A" "5" sampleData sampleRow rfl).2.2.2

/-! ## Claim C9 -/

theorem hidden_falsy_iff (o : Option Bool) : ((! o.getD false) = true) ↔ o ≠ some true := by
  cases o with
  | none => simp
  | some b => cases b <;> simp

/-- C9: `chartData` derives its points from exactly the rows whose `hidden`
flag is not `true`: it is a permutation of the visible rows' chart points
(the dataset itself, being an input of this pure derivation, is untouched);
every chart point comes from a row that is not hidden, and every row that is
not hidden contributes its chart point. -/
theorem chartData_visible_rows (d : Data) :
    (chartData d).Perm
      ((d.rows.filter fun row => ! row.hidden.getD false).map chartPointOfRow) ∧
    (∀ p ∈ chartData d, ∃ row ∈ d.rows, row.hidden ≠ some true ∧ p = chartPointOfRow row) ∧
    (∀ row ∈ d.rows, row.hidden ≠ some true → chartPointOfRow row ∈ chartData d) := by
  have hperm : (chartData d).Perm
      ((d.rows.filter fun row => ! row.hidden.getD false).map chartPointOfRow) :=
    List.Perm.map chartPointOfRow (List.mergeSort_perm _ _)
  refine ⟨hperm, ?_, ?_⟩
  · intro p hp
    have hp' : p ∈ (d.rows.filter fun row => ! row.hidden.getD false).map chartPointOfRow :=
      hperm.mem_iff.mp hp
    obtain ⟨row, hrowmem, hrowp⟩ := List.mem_map.mp hp'
    obtain ⟨hmem, hvis⟩ := List.mem_filter.mp hrowmem
    exact ⟨row, hmem, (hidden_falsy_iff row.hidden).mp hvis, hrowp.symm⟩
  · intro row hmem hvis
    have hrowmem : row ∈ d.rows.filter fun row => ! row.hidden.getD false :=
      List.mem_filter.mpr ⟨hmem, (hidden_falsy_iff row.hidden).mpr hvis⟩
    exact hperm.symm.mem_iff.mp (List.mem_map.mpr ⟨row, hrowmem, rfl⟩)

/-- A hidden row for the C9 witness dataset. -/
def hiddenRow : Row :=
  { date := "2028-01-14", values := [("A", JsVal.num 2)], hidden := some true }

/-- Witness for C9: in a dataset holding a visible and a hidden row, the
visible row's chart point is in `chartData`. -/
theorem chartData_visible_rows_wit :
    chartPointOfRow sampleRow ∈ chartData { headers := ["A"], rows := [sampleRow, hiddenRow] } :=
  (chartData_visible_rows { headers := ["A"], rows := [sampleRow, hiddenRow] }).2.2
    sampleRow (by decide) (by decide)

/-! ## Claim C10 -/

theorem jsIsNaN_false_ne_nan {v : JsVal} (h : jsIsNaN v = false) : v ≠ JsVal.nan := by
  cases v <;> simp_all [jsIsNaN]

/-- C10: `prepareData` (applied before every local-storage save, file
download and cross-window data-update emission) preserves the headers, the
number and order of rows, each row's date, hidden flag and value keys, maps
the value NaN to `0` and leaves every finite value unchanged — and its
output never contains a NaN value. -/
theorem prepareData_no_nan (d : Data) :
    (prepareData d).headers = d.headers ∧
    (prepareData d).rows.length = d.rows.length ∧
    (∀ (i : ℕ) (r : Row), d.rows[i]? = some r →
      ∃ r', (prepareData d).rows[i]? = some r' ∧
        r'.date = r.date ∧ r'.hidden = r.hidden ∧
        r'.values.map Prod.fst = r.values.map Prod.fst ∧
        (∀ (j : ℕ) (k : String), r.values[j]? = some (k, JsVal.nan) →
          r'.values[j]? = some (k, JsVal.num 0)) ∧
        (∀ (j : ℕ) (k : String) (q : ℚ), r.values[j]? = some (k, JsVal.num q) →
          r'.values[j]? = some (k, JsVal.num q))) ∧
    (∀ r' ∈ (prepareData d).rows, ∀ kv ∈ r'.values, kv.2 ≠ JsVal.nan) := by
  refine ⟨rfl, by simp [prepareData], ?_, ?_⟩
  · intro i r hr
    refine ⟨{ r with values := r.values.map fun kv =>
        (kv.1, if jsIsNaN kv.2 then JsVal.num 0 else kv.2) }, ?_, rfl, rfl, ?_, ?_, ?_⟩
    · simp only [prepareData]
      rw [List.getElem?_map, hr]
      rfl
    · rw [List.map_map]
      rfl
    · intro j k hjk
      rw [List.getElem?_map, hjk]
      rfl
    · intro j k q hjk
      rw [List.getElem?_map, hjk]
      rfl
  · intro r' hr' kv hkv
    simp only [prepareData, List.mem_map] at hr'
    obtain ⟨r, _, hrr⟩ := hr'
    subst hrr
    simp only [List.mem_map] at hkv
    obtain ⟨kv0, _, hkv0⟩ := hkv
    subst hkv0
    by_cases hnan : jsIsNaN kv0.2
    · simp [hnan]
    · simp only [hnan, if_neg, Bool.false_eq_true, if_false]
      exact jsIsNaN_false_ne_nan (Bool.not_eq_true _ ▸ Bool.of_not_eq_true hnan)

/-- The dataset with a NaN cell used by the C10 witness. -/
def nanData : Data :=
  { headers := ["A"],
    rows := [{ date := "2027-10-14", values := [("A", JsVal.nan)], hidden := none }] }

/-- Witness for C10: the value that `prepareData` leaves in the NaN cell is
not NaN. -/
theorem prepareData_no_nan_wit :
    (("A", JsVal.num 0) : String × JsVal).2 ≠ JsVal.nan :=
  (prepareData_no_nan nanData).2.2.2
    { date := "2027-10-14", values := [("A", JsVal.num 0)], hidden := none }
    (by decide) ("A", JsVal.num 0) (by decide)
